import Mathlib

/-!
# Verification of the MySQL schema export utility

A shallow embedding, in Lean 4, of the pure logic of `export-schema.py`:
the row-to-tree reshaping of catalog rows (constraints, indexes, foreign
keys), the configuration resolver, the per-table metadata fallbacks, and
the table-filter handling of `main`.  Catalog rows are modelled as lists
of records (one record per row, fields as selected by each SQL query);
Python dicts are modelled as insertion-ordered association lists, with
`d[k] = v` updating an existing key in place and appending a fresh key.
-/

namespace SchemaExport

/-- Python `d[k] = v` on a dict represented as an insertion-ordered
association list: an existing key keeps its place and gets the new value,
a fresh key is appended at the end. -/
def dictInsert (m : List (Nat × String)) (k : Nat) (v : String) :
    List (Nat × String) :=
  if m.any (fun p => p.1 == k) then
    m.map (fun p => if p.1 == k then (k, v) else p)
  else m ++ [(k, v)]

/-- The `≤`-by-position ordering used to model Python `sorted` on the
key set of a position → name dict, lifted to the key/value pairs. -/
def posLe (a b : Nat × String) : Prop := a.1 ≤ b.1

instance posLe_decidable : DecidableRel posLe := fun a b => Nat.decLe a.1 b.1

instance posLe_total : IsTotal (Nat × String) posLe := ⟨fun a b => Nat.le_total a.1 b.1⟩

instance posLe_trans : IsTrans (Nat × String) posLe := ⟨fun _ _ _ => Nat.le_trans⟩

/-- Strict version of `posLe`, used to compare sorted runs with distinct keys. -/
def posLt (a b : Nat × String) : Prop := a.1 < b.1

instance posLt_antisymm : IsAntisymm (Nat × String) posLt :=
  ⟨fun _ _ h h' => absurd h' (Nat.lt_asymm h)⟩

/-- Python `[d[pos] for pos in sorted(d.keys())]`: flatten a position → name dict
by ascending key.  (`List.lookup` never misses because every key sorted
here comes from `m` itself.) -/
def sortedFlatten (m : List (Nat × String)) : List String :=
  (List.insertionSort (fun a b : Nat => a ≤ b) (m.map Prod.fst)).filterMap
    (fun k => m.lookup k)

/-- One row of the `TABLE_CONSTRAINTS ⋈ KEY_COLUMN_USAGE` query of
`get_table_constraints`. -/
structure ConstraintRow where
  constraint_name : String
  constraint_type : String
  column_name : String
  ordinal_position : Nat
deriving DecidableEq, Repr

/-- Python `unique_constraints[name] = {}` (when absent) followed by
`unique_constraints[name][pos] = col`: the dict-of-dicts update of
`get_table_constraints`. -/
def ucInsert (uc : List (String × List (Nat × String))) (n : String) (k : Nat)
    (v : String) : List (String × List (Nat × String)) :=
  if uc.any (fun p => p.1 == n) then
    uc.map (fun p => if p.1 == n then (p.1, dictInsert p.2 k v) else p)
  else uc ++ [(n, dictInsert [] k v)]

/-- The row loop of `get_table_constraints`: rows of type `PRIMARY KEY` go
into the anonymous `primary_key` dict, rows of type `UNIQUE` into the
per-name `unique_constraints` dict of dicts, anything else is ignored. -/
def constraintsFold (rows : List ConstraintRow) (pk : List (Nat × String))
    (uc : List (String × List (Nat × String))) :
    List (Nat × String) × List (String × List (Nat × String)) :=
  match rows with
  | [] => (pk, uc)
  | r :: rs =>
    if r.constraint_type == "PRIMARY KEY" then
      constraintsFold rs (dictInsert pk r.ordinal_position r.column_name) uc
    else if r.constraint_type == "UNIQUE" then
      constraintsFold rs pk (ucInsert uc r.constraint_name r.ordinal_position r.column_name)
    else
      constraintsFold rs pk uc

/-- A unique constraint as emitted: `{'name': ..., 'columns': [...]}`. -/
structure UniqueConstraint where
  name : String
  columns : List String
deriving DecidableEq, Repr

/-- Translation of `get_table_constraints`: group rows, then sort-and-flatten the primary
key and each unique constraint by ordinal position. -/
def get_table_constraints (rows : List ConstraintRow) :
    List String × List UniqueConstraint :=
  let acc := constraintsFold rows [] []
  (sortedFlatten acc.1,
    acc.2.map (fun p => { name := p.1, columns := sortedFlatten p.2 }))

/-- One row of the `INFORMATION_SCHEMA.STATISTICS` query of
`get_table_indexes`. -/
structure IndexRow where
  index_name : String
  non_unique : Nat
  seq_in_index : Nat
  column_name : String
deriving DecidableEq, Repr

/-- Python `str.upper` on one character, modelled exactly as far as the
program's comparison with `'PRIMARY'` is concerned: the ASCII range plus
dotless `ı` (U+0131, codepoint 305), whose Python uppercase is `I`.
These are the only codepoints whose uppercase is a letter of `PRIMARY`:
the sole other codepoint with an ASCII simple uppercase is `ſ` (U+017F,
to `S`, not a letter of `PRIMARY`), and the multi-character expansions of
full case mapping (`SS`, `FF`, `FI`, `FL`, `FFI`, `FFL`, `ST`, letter
plus combining mark, Greek iota forms) are never substrings of
`PRIMARY`, so they cannot assemble the seven-character result either. -/
def pyUpperChar (c : Char) : Char :=
  if 97 ≤ c.toNat ∧ c.toNat ≤ 122 then Char.ofNat (c.toNat - 32)
  else if c.toNat = 305 then 'I'
  else c

/-- Python `str.upper`, characterwise via `pyUpperChar`; by the case
analysis above it agrees with Python on whether the result equals
`"PRIMARY"`, for every input string. -/
def pyUpper (s : String) : String := ⟨s.data.map pyUpperChar⟩

/-- One entry of `index_buckets`: name, uniqueness flag (decoded from the
first row of the bucket), and the position → column dict. -/
structure IndexBucket where
  name : String
  unique : Bool
  columns : List (Nat × String)
deriving DecidableEq, Repr

/-- The row loop of `get_table_indexes`: create the bucket on first sight
of a name (decoding `NON_UNIQUE` there), then always set
`columns[seq] = col`. -/
def idxInsert (bs : List IndexBucket) (r : IndexRow) : List IndexBucket :=
  if bs.any (fun b => b.name == r.index_name) then
    bs.map (fun b =>
      if b.name == r.index_name then
        { b with columns := dictInsert b.columns r.seq_in_index r.column_name }
      else b)
  else
    bs ++ [{ name := r.index_name, unique := r.non_unique == 0,
             columns := dictInsert [] r.seq_in_index r.column_name }]

/-- A secondary index as emitted: `{'name', 'unique', 'columns'}`. -/
structure IndexOut where
  name : String
  unique : Bool
  columns : List String
deriving DecidableEq, Repr

/-- Translation of `get_table_indexes`: bucket the rows by index name, skip the bucket
whose `name.upper()` is `PRIMARY`, and sort-and-flatten each surviving
bucket. -/
def get_table_indexes (rows : List IndexRow) : List IndexOut :=
  let buckets := rows.foldl idxInsert []
  (buckets.filter (fun b => !(pyUpper b.name == "PRIMARY"))).map
    (fun b => { name := b.name, unique := b.unique,
                columns := sortedFlatten b.columns })

/-- One row of the `KEY_COLUMN_USAGE ⋈ REFERENTIAL_CONSTRAINTS` query of
`get_table_foreign_keys` (only the selected columns). -/
structure FkRow where
  constraint_name : String
  column_name : String
  ref_table : String
  ref_column : String
  update_rule : String
  delete_rule : String
deriving DecidableEq, Repr

/-- A foreign key as emitted by `get_table_foreign_keys`. -/
structure ForeignKey where
  name : String
  columns : List String
  ref_table : String
  ref_columns : List String
  on_update : String
  on_delete : String
deriving DecidableEq, Repr

/-- The row loop of `get_table_foreign_keys`: create the bucket on first
sight of a constraint name (taking referenced table and rules from that
row), then append the row's local and referenced column to the two
parallel lists. -/
def fkInsert (bs : List ForeignKey) (r : FkRow) : List ForeignKey :=
  (if bs.any (fun b => b.name == r.constraint_name) then bs
   else bs ++ [{ name := r.constraint_name, columns := [],
                 ref_table := r.ref_table, ref_columns := [],
                 on_update := r.update_rule, on_delete := r.delete_rule }]).map
    (fun b =>
      if b.name == r.constraint_name then
        { b with columns := b.columns ++ [r.column_name],
                 ref_columns := b.ref_columns ++ [r.ref_column] }
      else b)

/-- Translation of `get_table_foreign_keys`: fold the rows into buckets and return
`list(fk_buckets.values())`. -/
def get_table_foreign_keys (rows : List FkRow) : List ForeignKey :=
  rows.foldl fkInsert []

/-- The single row of the `INFORMATION_SCHEMA.TABLES` query of
`get_table_info` (`fetchone`, hence optional at the call site). -/
structure InfoRow where
  table_rows : Option Int
  engine : Option String
  table_collation : Option String
deriving DecidableEq, Repr

/-- The record emitted by `get_table_info`. -/
structure TableInfo where
  row_count_est : Option Int
  engine : Option String
  collation : Option String
deriving DecidableEq, Repr

/-- Translation of `get_table_info`: decode the single catalog row; with no row, fall
back to an all-null record. -/
def get_table_info (row : Option InfoRow) : TableInfo :=
  match row with
  | some r =>
    { row_count_est := r.table_rows, engine := r.engine,
      collation := r.table_collation }
  | none => { row_count_est := none, engine := none, collation := none }

/-- Translation of `get_table_ddl`: the `SHOW CREATE TABLE` row is a dict (modelled as an
association list); `row.get('Create Table', '')` with no row at all
returning `''`. -/
def get_table_ddl (row : Option (List (String × String))) : String :=
  match row with
  | some r => ((r.lookup "Create Table").getD "")
  | none => ""

/-- One row of the `INFORMATION_SCHEMA.COLUMNS` query of
`get_table_columns`. -/
structure ColRow where
  column_name : String
  column_type : String
  is_nullable : String
  column_default : Option String
  extra : String
  column_comment : String
  ordinal_position : Nat
deriving DecidableEq, Repr

/-- A column record as emitted by `get_table_columns`. -/
structure Column where
  name : String
  type : String
  nullable : Bool
  default : Option String
  extra : String
  comment : String
  position : Nat
deriving DecidableEq, Repr

/-- Translation of `get_table_columns`: decode each row into a column record. -/
def get_table_columns (rows : List ColRow) : List Column :=
  rows.map (fun r =>
    { name := r.column_name, type := r.column_type,
      nullable := r.is_nullable == "YES", default := r.column_default,
      extra := r.extra, comment := r.column_comment,
      position := r.ordinal_position })

/-- Translation of `get_config_value`: priority CLI > environment > config file >
default.  The environment is a lookup function (`os.getenv`), the config
file an optional section/key lookup (`None` models the falsy `{}` of a
missing or unparsable file); `None` results map to `none`.  (`section` is
a Lean keyword, hence the parameter name `sect`.) -/
def get_config_value (cli_arg : Option String) (env : String → Option String)
    (env_var : String) (config_file : Option (String → String → Option String))
    (sect key : String) (default : Option String) : Option String :=
  match cli_arg with
  | some v => some v
  | none =>
    match env env_var with
    | some v => some v
    | none =>
      match config_file with
      | some cf =>
        match cf sect key with
        | some v => some v
        | none => default
      | none => default

/-- Running `dictFold d ps` performs the dict update `d[k] = v` over the pairs `ps`
in order; the common shape of all grouping loops above. -/
def dictFold (d : List (Nat × String)) (ps : List (Nat × String)) :
    List (Nat × String) :=
  ps.foldl (fun m p => dictInsert m p.1 p.2) d

/-- The (position, name) pairs that the row loop of
`get_table_constraints` feeds into the primary-key dict. -/
def pkPairs (rows : List ConstraintRow) : List (Nat × String) :=
  rows.filterMap (fun r =>
    if r.constraint_type == "PRIMARY KEY" then
      some (r.ordinal_position, r.column_name) else none)

/-- The (position, name) pairs that the row loop of
`get_table_constraints` feeds into the dict of the unique constraint
named `n`. -/
def ucPairs (n : String) (rows : List ConstraintRow) : List (Nat × String) :=
  rows.filterMap (fun r =>
    if r.constraint_type == "UNIQUE" && r.constraint_name == n then
      some (r.ordinal_position, r.column_name) else none)

/-- The (position, name) pairs that the row loop of `get_table_indexes`
feeds into the columns dict of the index named `n`. -/
def idxPairs (n : String) (rows : List IndexRow) : List (Nat × String) :=
  rows.filterMap (fun r =>
    if r.index_name == n then
      some (r.seq_in_index, r.column_name) else none)

/-- Modelled from the spec: "reassembled column order equals ascending
position order" — sort the (position, name) pairs of an entity by
position and project the names. -/
def specSortedByPosition (l : List (Nat × String)) : List String :=
  (List.insertionSort posLe l).map Prod.snd

theorem any_fst_beq {α γ : Type} [BEq α] [LawfulBEq α] (l : List (α × γ))
    (k : α) : l.any (fun p => p.1 == k) = true ↔ k ∈ l.map Prod.fst := by
  simp [List.any_eq_true, List.mem_map]

theorem lookup_eq_some_of_mem_nodup {α β : Type} [BEq α] [LawfulBEq α]
    {m : List (α × β)} {k : α} {v : β}
    (hm : (k, v) ∈ m) (hn : (m.map Prod.fst).Nodup) :
    m.lookup k = some v := by
  induction m with
  | nil => cases hm
  | cons p ps ih =>
    obtain ⟨a, b⟩ := p
    simp only [List.map_cons] at hn
    have hcons := List.nodup_cons.1 hn
    rcases List.mem_cons.1 hm with h | h
    · cases h
      simp [List.lookup]
    · have hk : k ∈ ps.map Prod.fst := List.mem_map.2 ⟨(k, v), h, rfl⟩
      have hne : (k == a) = false := by
        rw [beq_eq_false_iff_ne]
        rintro rfl
        exact hcons.1 hk
      simpa [List.lookup, hne] using ih h hcons.2

theorem dictInsert_of_fresh {m : List (Nat × String)} {k : Nat} {v : String}
    (h : k ∉ m.map Prod.fst) : dictInsert m k v = m ++ [(k, v)] := by
  have hc : ¬ (m.any (fun p => p.1 == k) = true) :=
    fun hc => h ((any_fst_beq m k).1 hc)
  simp [dictInsert, hc]

theorem dictFold_of_fresh :
    ∀ (l acc : List (Nat × String)),
      (∀ k ∈ l.map Prod.fst, k ∉ acc.map Prod.fst) →
      (l.map Prod.fst).Nodup →
      dictFold acc l = acc ++ l
  | [], acc, _, _ => by simp [dictFold]
  | (k, v) :: ps, acc, hd, hn => by
    simp only [List.map_cons] at hn
    have hcons := List.nodup_cons.1 hn
    have hfresh : k ∉ acc.map Prod.fst := hd k (by simp)
    have hd' : ∀ a ∈ ps.map Prod.fst, a ∉ (acc ++ [(k, v)]).map Prod.fst := by
      intro a ha hmem
      rw [List.map_append] at hmem
      rcases List.mem_append.1 hmem with h | h
      · exact hd a (by simp [ha]) h
      · have hak : a = k := by simpa using h
        exact hcons.1 (hak ▸ ha)
    have step : dictFold acc ((k, v) :: ps)
        = dictFold (acc ++ [(k, v)]) ps := by
      simp [dictFold, dictInsert_of_fresh hfresh]
    rw [step, dictFold_of_fresh ps (acc ++ [(k, v)]) hd' hcons.2]
    simp

theorem filterMap_lookup_eq_map_snd {m : List (Nat × String)} :
    ∀ (L : List (Nat × String)), (∀ p ∈ L, m.lookup p.1 = some p.2) →
      L.filterMap (fun p => m.lookup p.1) = L.map Prod.snd
  | [], _ => rfl
  | p :: ps, h => by
    have h1 := h p (by simp)
    simp [List.filterMap_cons, h1,
      filterMap_lookup_eq_map_snd ps (fun q hq => h q (by simp [hq]))]

theorem sorted_strict_of_nodup_keys {l : List (Nat × String)}
    (hn : (l.map Prod.fst).Nodup) :
    (List.insertionSort posLe l).Sorted posLt := by
  have h1 : (List.insertionSort posLe l).Sorted posLe :=
    List.sorted_insertionSort posLe l
  have h2 : ((List.insertionSort posLe l).map Prod.fst).Nodup :=
    (((List.perm_insertionSort posLe l).map Prod.fst).nodup_iff).2 hn
  have h3 : (List.insertionSort posLe l).Pairwise (fun a b => a.1 ≠ b.1) :=
    List.pairwise_map.1 h2
  exact h1.imp₂ (fun _ _ hle hne => Nat.lt_of_le_of_ne hle hne) h3

theorem insertionSort_perm_eq {l l' : List (Nat × String)}
    (hp : List.Perm l' l) (hn : (l.map Prod.fst).Nodup) :
    List.insertionSort posLe l' = List.insertionSort posLe l := by
  have hn' : (l'.map Prod.fst).Nodup := ((hp.map Prod.fst).nodup_iff).2 hn
  have hperm : List.Perm (List.insertionSort posLe l') (List.insertionSort posLe l) :=
    (List.perm_insertionSort posLe l').trans
      (hp.trans (List.perm_insertionSort posLe l).symm)
  exact List.eq_of_perm_of_sorted hperm (sorted_strict_of_nodup_keys hn')
    (sorted_strict_of_nodup_keys hn)

theorem sortedFlatten_eq_specSorted {m : List (Nat × String)}
    (hn : (m.map Prod.fst).Nodup) :
    sortedFlatten m = specSortedByPosition m := by
  have hmap : (List.insertionSort posLe m).map Prod.fst
      = List.insertionSort (fun a b : Nat => a ≤ b) (m.map Prod.fst) :=
    List.map_insertionSort posLe (fun a b : Nat => a ≤ b) Prod.fst m
      (fun _ _ _ _ => Iff.rfl)
  unfold sortedFlatten specSortedByPosition
  rw [← hmap, List.filterMap_map]
  apply filterMap_lookup_eq_map_snd
  intro p hp
  exact lookup_eq_some_of_mem_nodup
    ((List.perm_insertionSort posLe m).subset hp) hn

theorem lookup_isSome_of_mem_keys {α β : Type} [BEq α] [LawfulBEq α]
    {ps : List (α × β)} {n : α} (h : n ∈ ps.map Prod.fst) :
    ∃ d, ps.lookup n = some d := by
  induction ps with
  | nil => simp at h
  | cons p ps ih =>
    obtain ⟨a, b⟩ := p
    by_cases hna : n = a
    · subst hna
      exact ⟨b, by simp [List.lookup]⟩
    · have hb : (n == a) = false := by rw [beq_eq_false_iff_ne]; exact hna
      have hmem : n ∈ ps.map Prod.fst := by
        simp only [List.map_cons, List.mem_cons] at h
        exact h.resolve_left hna
      obtain ⟨d, hd⟩ := ih hmem
      exact ⟨d, by simp [List.lookup, hb, hd]⟩

theorem lookup_eq_none_of_not_mem_keys {α β : Type} [BEq α] [LawfulBEq α]
    {ps : List (α × β)} {n : α} (h : n ∉ ps.map Prod.fst) :
    ps.lookup n = none := by
  induction ps with
  | nil => rfl
  | cons p ps ih =>
    obtain ⟨a, b⟩ := p
    simp only [List.map_cons, List.mem_cons] at h
    push_neg at h
    have hb : (n == a) = false := by rw [beq_eq_false_iff_ne]; exact h.1
    simp [List.lookup, hb, ih h.2]

theorem lookup_append_of_none {α β : Type} [BEq α] [LawfulBEq α]
    {l1 : List (α × β)} (l2 : List (α × β)) {m : α}
    (h : l1.lookup m = none) : (l1 ++ l2).lookup m = l2.lookup m := by
  induction l1 with
  | nil => rfl
  | cons p ps ih =>
    obtain ⟨a, b⟩ := p
    by_cases hma : m = a
    · subst hma; simp [List.lookup] at h
    · have hb : (m == a) = false := by rw [beq_eq_false_iff_ne]; exact hma
      simp only [List.lookup, hb] at h
      simp only [List.cons_append, List.lookup, hb]
      exact ih h

theorem lookup_update_map_self {α β : Type} [BEq α] [LawfulBEq α]
    (f : β → β) {ps : List (α × β)} {n : α} {d : β}
    (h : ps.lookup n = some d) :
    (ps.map (fun p => if p.1 == n then (p.1, f p.2) else p)).lookup n
      = some (f d) := by
  induction ps with
  | nil => simp [List.lookup] at h
  | cons p ps ih =>
    obtain ⟨a, b⟩ := p
    by_cases hna : n = a
    · subst hna
      simp [List.lookup] at h
      subst h
      simp only [List.map_cons]
      rw [if_pos (show (((n, b).1 == n) = true) by simp)]
      simp [List.lookup]
    · have hb : (n == a) = false := by rw [beq_eq_false_iff_ne]; exact hna
      simp only [List.lookup, hb] at h
      simp only [List.map_cons]
      rw [if_neg (show ¬(((a, b).1 == n) = true) by
        simp only [beq_iff_eq]; exact fun hc => hna hc.symm)]
      have hgoal := ih h
      simpa [List.lookup, hb] using hgoal

theorem lookup_update_map_ne {α β : Type} [BEq α] [LawfulBEq α]
    (f : β → β) (ps : List (α × β)) {m n : α} (h : m ≠ n) :
    (ps.map (fun p => if p.1 == n then (p.1, f p.2) else p)).lookup m
      = ps.lookup m := by
  induction ps with
  | nil => rfl
  | cons p ps ih =>
    obtain ⟨a, b⟩ := p
    have hbm : (m == n) = false := by rw [beq_eq_false_iff_ne]; exact h
    by_cases han : a = n
    · subst han
      simp only [List.map_cons]
      rw [if_pos (show (((a, b).1 == a) = true) by simp)]
      simpa [List.lookup, hbm] using ih
    · simp only [List.map_cons]
      rw [if_neg (show ¬(((a, b).1 == n) = true) by
        simp only [beq_iff_eq]; exact han)]
      by_cases hma : m = a
      · subst hma; simp [List.lookup]
      · have hbma : (m == a) = false := by rw [beq_eq_false_iff_ne]; exact hma
        simpa [List.lookup, hbma] using ih

theorem keys_update_map {α β : Type} [BEq α] [LawfulBEq α]
    (f : β → β) (ps : List (α × β)) (n : α) :
    (ps.map (fun p => if p.1 == n then (p.1, f p.2) else p)).map Prod.fst
      = ps.map Prod.fst := by
  rw [List.map_map]
  apply List.map_congr_left
  intro p _
  show Prod.fst (if p.1 == n then (p.1, f p.2) else p) = p.1
  by_cases hc : (p.1 == n) = true
  · rw [if_pos hc]
  · rw [if_neg hc]

theorem lookup_append_left {α β : Type} [BEq α] [LawfulBEq α]
    {l1 : List (α × β)} (l2 : List (α × β)) {m : α} {d : β}
    (h : l1.lookup m = some d) : (l1 ++ l2).lookup m = some d := by
  induction l1 with
  | nil => simp [List.lookup] at h
  | cons p ps ih =>
    obtain ⟨a, b⟩ := p
    by_cases hma : m = a
    · subst hma
      simp [List.lookup] at h ⊢
      exact h
    · have hb : (m == a) = false := by rw [beq_eq_false_iff_ne]; exact hma
      simp only [List.lookup, hb] at h
      simp only [List.cons_append, List.lookup, hb]
      exact ih h

theorem lookup_ucInsert_self (uc : List (String × List (Nat × String)))
    (n : String) (k : Nat) (v : String) :
    (ucInsert uc n k v).lookup n
      = some (dictInsert ((uc.lookup n).getD []) k v) := by
  unfold ucInsert
  cases ha : uc.any (fun p => p.1 == n) with
  | true =>
    have hmem : n ∈ uc.map Prod.fst := (any_fst_beq uc n).1 ha
    obtain ⟨d, hd⟩ := lookup_isSome_of_mem_keys hmem
    rw [if_pos rfl, lookup_update_map_self (fun d => dictInsert d k v) hd, hd]
    rfl
  | false =>
    rw [if_neg (by simp)]
    have hnot : n ∉ uc.map Prod.fst := fun hmem => by
      rw [(any_fst_beq uc n).2 hmem] at ha
      cases ha
    rw [lookup_append_of_none _ (lookup_eq_none_of_not_mem_keys hnot),
        lookup_eq_none_of_not_mem_keys hnot]
    simp [List.lookup]

theorem lookup_ucInsert_ne (uc : List (String × List (Nat × String)))
    {m n : String} (k : Nat) (v : String) (h : m ≠ n) :
    (ucInsert uc n k v).lookup m = uc.lookup m := by
  unfold ucInsert
  cases ha : uc.any (fun p => p.1 == n) with
  | true =>
    rw [if_pos rfl]
    exact lookup_update_map_ne (fun d => dictInsert d k v) uc h
  | false =>
    rw [if_neg (by simp)]
    cases hm : uc.lookup m with
    | some d => exact lookup_append_left _ hm
    | none =>
      rw [lookup_append_of_none _ hm]
      have hb : (m == n) = false := by rw [beq_eq_false_iff_ne]; exact h
      simp [List.lookup, hb]

theorem keys_nodup_ucInsert {uc : List (String × List (Nat × String))}
    {n : String} {k : Nat} {v : String} (h : (uc.map Prod.fst).Nodup) :
    ((ucInsert uc n k v).map Prod.fst).Nodup := by
  unfold ucInsert
  cases ha : uc.any (fun p => p.1 == n) with
  | true =>
    rw [if_pos rfl, keys_update_map (fun d => dictInsert d k v) uc n]
    exact h
  | false =>
    rw [if_neg (by simp)]
    have hnot : n ∉ uc.map Prod.fst := fun hmem => by
      rw [(any_fst_beq uc n).2 hmem] at ha
      cases ha
    simp [List.nodup_append, h, hnot]

/-- The effect, on the dict stored under one name, of folding the
remaining grouped rows: the dict absorbs the entity's (position, name)
pairs in order, a missing entity being created at its first pair. -/
def lookupAfter (o : Option (List (Nat × String)))
    (ps : List (Nat × String)) : Option (List (Nat × String)) :=
  match o, ps with
  | some d, ps => some (dictFold d ps)
  | none, [] => none
  | none, p :: ps => some (dictFold (dictInsert [] p.1 p.2) ps)

theorem ucInsert_fold_lookup :
    ∀ (ts : List (String × Nat × String))
      (acc : List (String × List (Nat × String))) (n : String),
      (ts.foldl (fun ps t => ucInsert ps t.1 t.2.1 t.2.2) acc).lookup n
        = lookupAfter (acc.lookup n)
            ((ts.filter (fun t => t.1 == n)).map (fun t => t.2))
  | [], acc, n => by
    cases h : acc.lookup n <;> simp [lookupAfter, h, dictFold]
  | t :: ts, acc, n => by
    obtain ⟨tn, tk, tv⟩ := t
    rw [List.foldl_cons]
    by_cases htn : tn = n
    · subst htn
      rw [ucInsert_fold_lookup ts, lookup_ucInsert_self,
          List.filter_cons_of_pos (by simp), List.map_cons]
      cases h : acc.lookup tn <;> simp [lookupAfter, h, dictFold]
    · rw [ucInsert_fold_lookup ts, lookup_ucInsert_ne acc tk tv (Ne.symm htn),
          List.filter_cons_of_neg (by simp [htn])]

theorem ucInsert_fold_keys_nodup :
    ∀ (ts : List (String × Nat × String))
      (acc : List (String × List (Nat × String))),
      (acc.map Prod.fst).Nodup →
      ((ts.foldl (fun ps t => ucInsert ps t.1 t.2.1 t.2.2) acc).map
        Prod.fst).Nodup
  | [], _, h => h
  | t :: ts, acc, h => by
    rw [List.foldl_cons]
    exact ucInsert_fold_keys_nodup ts _ (keys_nodup_ucInsert h)

/-- The (name, position, column) triples that the row loop of
`get_table_constraints` routes into the unique-constraints dict. -/
def ucTriples (rows : List ConstraintRow) : List (String × Nat × String) :=
  rows.filterMap (fun r =>
    if r.constraint_type == "UNIQUE" then
      some (r.constraint_name, r.ordinal_position, r.column_name) else none)

theorem constraintsFold_cons_pk {r : ConstraintRow} {rs pk uc}
    (h : (r.constraint_type == "PRIMARY KEY") = true) :
    constraintsFold (r :: rs) pk uc
      = constraintsFold rs (dictInsert pk r.ordinal_position r.column_name)
          uc := by
  simp only [constraintsFold]
  rw [if_pos h]

theorem constraintsFold_cons_unique {r : ConstraintRow} {rs pk uc}
    (h1 : (r.constraint_type == "PRIMARY KEY") = false)
    (h2 : (r.constraint_type == "UNIQUE") = true) :
    constraintsFold (r :: rs) pk uc
      = constraintsFold rs pk
          (ucInsert uc r.constraint_name r.ordinal_position r.column_name) := by
  simp only [constraintsFold]
  rw [if_neg (by simp [h1]), if_pos h2]

theorem constraintsFold_cons_other {r : ConstraintRow} {rs pk uc}
    (h1 : (r.constraint_type == "PRIMARY KEY") = false)
    (h2 : (r.constraint_type == "UNIQUE") = false) :
    constraintsFold (r :: rs) pk uc = constraintsFold rs pk uc := by
  simp only [constraintsFold]
  rw [if_neg (by simp [h1]), if_neg (by simp [h2])]

theorem pkPairs_cons_pk {r : ConstraintRow} {rs}
    (h : (r.constraint_type == "PRIMARY KEY") = true) :
    pkPairs (r :: rs) = (r.ordinal_position, r.column_name) :: pkPairs rs := by
  have hp : r.constraint_type = "PRIMARY KEY" := by simpa using h
  simp [pkPairs, List.filterMap_cons, hp]

theorem pkPairs_cons_other {r : ConstraintRow} {rs}
    (h : (r.constraint_type == "PRIMARY KEY") = false) :
    pkPairs (r :: rs) = pkPairs rs := by
  have hp : r.constraint_type ≠ "PRIMARY KEY" := by simpa using h
  simp [pkPairs, List.filterMap_cons, hp]

theorem ucTriples_cons_unique {r : ConstraintRow} {rs}
    (h : (r.constraint_type == "UNIQUE") = true) :
    ucTriples (r :: rs)
      = (r.constraint_name, r.ordinal_position, r.column_name)
          :: ucTriples rs := by
  have hp : r.constraint_type = "UNIQUE" := by simpa using h
  simp [ucTriples, List.filterMap_cons, hp]

theorem ucTriples_cons_other {r : ConstraintRow} {rs}
    (h : (r.constraint_type == "UNIQUE") = false) :
    ucTriples (r :: rs) = ucTriples rs := by
  have hp : r.constraint_type ≠ "UNIQUE" := by simpa using h
  simp [ucTriples, List.filterMap_cons, hp]

theorem constraintsFold_fst (rows : List ConstraintRow) :
    ∀ pk uc, (constraintsFold rows pk uc).1 = dictFold pk (pkPairs rows) := by
  induction rows with
  | nil => intro pk uc; simp [constraintsFold, pkPairs, dictFold]
  | cons r rs ih =>
    intro pk uc
    cases h1 : r.constraint_type == "PRIMARY KEY" with
    | true =>
      rw [constraintsFold_cons_pk h1, ih, pkPairs_cons_pk h1]
      rfl
    | false =>
      cases h2 : r.constraint_type == "UNIQUE" with
      | true => rw [constraintsFold_cons_unique h1 h2, ih, pkPairs_cons_other h1]
      | false => rw [constraintsFold_cons_other h1 h2, ih, pkPairs_cons_other h1]

theorem constraintsFold_snd (rows : List ConstraintRow) :
    ∀ pk uc, (constraintsFold rows pk uc).2
      = (ucTriples rows).foldl (fun ps t => ucInsert ps t.1 t.2.1 t.2.2) uc := by
  induction rows with
  | nil => intro pk uc; simp [constraintsFold, ucTriples]
  | cons r rs ih =>
    intro pk uc
    cases h1 : r.constraint_type == "PRIMARY KEY" with
    | true =>
      have h2 : (r.constraint_type == "UNIQUE") = false := by
        have hp : r.constraint_type = "PRIMARY KEY" := by simpa using h1
        simp [hp]
      rw [constraintsFold_cons_pk h1, ih, ucTriples_cons_other h2]
    | false =>
      cases h2 : r.constraint_type == "UNIQUE" with
      | true =>
        rw [constraintsFold_cons_unique h1 h2, ih, ucTriples_cons_unique h2]
        rfl
      | false =>
        rw [constraintsFold_cons_other h1 h2, ih, ucTriples_cons_other h2]

/-- The (name, columns-dict) projection of the index buckets, placing the
index fold in the same association-list setting as the unique-constraint
fold. -/
def idxAssoc (bs : List IndexBucket) : List (String × List (Nat × String)) :=
  bs.map (fun b => (b.name, b.columns))

theorem idxAssoc_idxInsert (bs : List IndexBucket) (r : IndexRow) :
    idxAssoc (idxInsert bs r)
      = ucInsert (idxAssoc bs) r.index_name r.seq_in_index r.column_name := by
  unfold idxInsert ucInsert idxAssoc
  have hany : ∀ cs : List IndexBucket,
      ((cs.map (fun b => (b.name, b.columns))).any
        (fun p => p.1 == r.index_name))
      = cs.any (fun b => b.name == r.index_name) := by
    intro cs
    induction cs with
    | nil => rfl
    | cons c cs ih => simp [List.any_cons, ih]
  rw [hany bs]
  cases hb : bs.any (fun b => b.name == r.index_name) with
  | true =>
    rw [if_pos rfl, if_pos rfl, List.map_map, List.map_map]
    apply List.map_congr_left
    intro b _
    show (fun b => (b.name, b.columns))
        (if b.name == r.index_name then
          { b with columns := dictInsert b.columns r.seq_in_index r.column_name }
        else b)
      = (if b.name == r.index_name then
          (b.name, dictInsert b.columns r.seq_in_index r.column_name)
        else (b.name, b.columns))
    by_cases hc : (b.name == r.index_name) = true
    · rw [if_pos hc, if_pos hc]
    · rw [if_neg hc, if_neg hc]
  | false =>
    rw [if_neg (by simp), if_neg (by simp), List.map_append]
    rfl

theorem idxAssoc_fold (rows : List IndexRow) :
    ∀ bs, idxAssoc (rows.foldl idxInsert bs)
      = (rows.map (fun r => (r.index_name, r.seq_in_index, r.column_name))).foldl
          (fun ps t => ucInsert ps t.1 t.2.1 t.2.2) (idxAssoc bs) := by
  induction rows with
  | nil => intro bs; rfl
  | cons r rs ih =>
    intro bs
    rw [List.foldl_cons, List.map_cons, List.foldl_cons, ih, idxAssoc_idxInsert]

theorem idxPairs_eq (n : String) (rows : List IndexRow) :
    (((rows.map (fun r => (r.index_name, r.seq_in_index, r.column_name))).filter
        (fun t => t.1 == n)).map (fun t => t.2))
      = idxPairs n rows := by
  induction rows with
  | nil => rfl
  | cons r rs ih =>
    by_cases h : r.index_name = n
    · rw [List.map_cons, List.filter_cons_of_pos (by simp [h]), List.map_cons,
        ih]
      simp [idxPairs, List.filterMap_cons, h]
    · rw [List.map_cons, List.filter_cons_of_neg (by simp [h]), ih]
      simp [idxPairs, List.filterMap_cons, h]

theorem ucPairs_eq (n : String) (rows : List ConstraintRow) :
    ((ucTriples rows).filter (fun t => t.1 == n)).map (fun t => t.2)
      = ucPairs n rows := by
  induction rows with
  | nil => rfl
  | cons r rs ih =>
    by_cases ht : r.constraint_type = "UNIQUE"
    · rw [ucTriples_cons_unique (by simp [ht])]
      by_cases hn : r.constraint_name = n
      · rw [List.filter_cons_of_pos (by simp [hn]), List.map_cons, ih]
        simp [ucPairs, List.filterMap_cons, ht, hn]
      · rw [List.filter_cons_of_neg (by simp [hn]), ih]
        simp [ucPairs, List.filterMap_cons, ht, hn]
    · rw [ucTriples_cons_other (by simp [ht]), ih]
      simp [ucPairs, List.filterMap_cons, ht]

theorem lookupAfter_none_inv {d : List (Nat × String)}
    {ps : List (Nat × String)} (h : lookupAfter none ps = some d) :
    d = dictFold [] ps := by
  cases ps with
  | nil => cases h
  | cons q qs =>
    injection h with h'
    exact h'.symm

theorem sortedFlatten_dictFold_spec {l l' : List (Nat × String)}
    (hperm : List.Perm l' l) (hn : (l.map Prod.fst).Nodup) :
    sortedFlatten (dictFold [] l') = specSortedByPosition l := by
  have hn' : (l'.map Prod.fst).Nodup := ((hperm.map Prod.fst).nodup_iff).2 hn
  rw [dictFold_of_fresh _ _ (by simp) hn', List.nil_append,
      sortedFlatten_eq_specSorted hn']
  unfold specSortedByPosition
  rw [insertionSort_perm_eq hperm hn]

theorem pk_columns_spec {rows rows' : List ConstraintRow}
    (hp : List.Perm rows' rows)
    (hn : ((pkPairs rows).map Prod.fst).Nodup) :
    (get_table_constraints rows').1 = specSortedByPosition (pkPairs rows) := by
  have hpp : List.Perm (pkPairs rows') (pkPairs rows) := hp.filterMap _
  have h1 : (get_table_constraints rows').1
      = sortedFlatten (dictFold [] (pkPairs rows')) := by
    show sortedFlatten (constraintsFold rows' [] []).1 = _
    rw [constraintsFold_fst]
  rw [h1, sortedFlatten_dictFold_spec hpp hn]

theorem uc_columns_spec {rows rows' : List ConstraintRow}
    (hp : List.Perm rows' rows) {u : UniqueConstraint}
    (hu : u ∈ (get_table_constraints rows').2)
    (hn : ((ucPairs u.name rows).map Prod.fst).Nodup) :
    u.columns = specSortedByPosition (ucPairs u.name rows) := by
  have hu' : u ∈ ((constraintsFold rows' [] []).2).map
      (fun p => ({ name := p.1, columns := sortedFlatten p.2 }
        : UniqueConstraint)) := hu
  obtain ⟨p, hpmem, hup⟩ := List.mem_map.1 hu'
  have hkeys : (((constraintsFold rows' [] []).2).map Prod.fst).Nodup := by
    rw [constraintsFold_snd]
    exact ucInsert_fold_keys_nodup _ _ (by simp)
  have hlk : ((constraintsFold rows' [] []).2).lookup p.1 = some p.2 :=
    lookup_eq_some_of_mem_nodup hpmem hkeys
  rw [constraintsFold_snd, ucInsert_fold_lookup, ucPairs_eq] at hlk
  have hp2 : p.2 = dictFold [] (ucPairs p.1 rows') := lookupAfter_none_inv hlk
  have hname : u.name = p.1 := by rw [← hup]
  have hcols : u.columns = sortedFlatten p.2 := by rw [← hup]
  have hpp : List.Perm (ucPairs p.1 rows') (ucPairs p.1 rows) :=
    hp.filterMap _
  rw [hcols, hp2, hname, sortedFlatten_dictFold_spec hpp (hname ▸ hn)]

theorem idx_columns_spec {rows rows' : List IndexRow}
    (hp : List.Perm rows' rows) {i : IndexOut}
    (hi : i ∈ get_table_indexes rows')
    (hn : ((idxPairs i.name rows).map Prod.fst).Nodup) :
    i.columns = specSortedByPosition (idxPairs i.name rows) := by
  simp only [get_table_indexes] at hi
  obtain ⟨b, hbmem, hib⟩ := List.mem_map.1 hi
  have hbbk : b ∈ rows'.foldl idxInsert [] := (List.mem_filter.1 hbmem).1
  have hassoc : (b.name, b.columns) ∈ idxAssoc (rows'.foldl idxInsert []) :=
    List.mem_map.2 ⟨b, hbbk, rfl⟩
  have hkeys : ((idxAssoc (rows'.foldl idxInsert [])).map Prod.fst).Nodup := by
    rw [idxAssoc_fold]
    exact ucInsert_fold_keys_nodup _ _ (by simp [idxAssoc])
  have hlk := lookup_eq_some_of_mem_nodup hassoc hkeys
  rw [idxAssoc_fold, ucInsert_fold_lookup, idxPairs_eq] at hlk
  have hb2 : b.columns = dictFold [] (idxPairs b.name rows') :=
    lookupAfter_none_inv hlk
  have hname : i.name = b.name := by rw [← hib]
  have hcols : i.columns = sortedFlatten b.columns := by rw [← hib]
  have hpp : List.Perm (idxPairs b.name rows') (idxPairs b.name rows) :=
    hp.filterMap _
  rw [hcols, hb2, hname, sortedFlatten_dictFold_spec hpp (hname ▸ hn)]

/-- C1: for every multi-row grouped entity (primary key, unique
constraint, secondary index) and every arrival order of the catalog rows
(any permutation `crows'` / `irows'` of the well-formed result sets
`crows` / `irows`, well-formed meaning each entity's ordinal positions
are distinct), the reassembled column list equals the entity's column
names ordered by strictly ascending ordinal position. -/
theorem grouped_entities_sorted_by_position
    (crows crows' : List ConstraintRow) (irows irows' : List IndexRow)
    (hcp : List.Perm crows' crows) (hip : List.Perm irows' irows)
    (hpk : ((pkPairs crows).map Prod.fst).Nodup)
    (huc : ∀ u ∈ (get_table_constraints crows').2,
      ((ucPairs u.name crows).map Prod.fst).Nodup)
    (hidx : ∀ i ∈ get_table_indexes irows',
      ((idxPairs i.name irows).map Prod.fst).Nodup) :
    (get_table_constraints crows').1 = specSortedByPosition (pkPairs crows) ∧
    (∀ u ∈ (get_table_constraints crows').2,
      u.columns = specSortedByPosition (ucPairs u.name crows)) ∧
    (∀ i ∈ get_table_indexes irows',
      i.columns = specSortedByPosition (idxPairs i.name irows)) :=
  ⟨pk_columns_spec hcp hpk,
   fun u hu => uc_columns_spec hcp hu (huc u hu),
   fun i hi => idx_columns_spec hip hi (hidx i hi)⟩

theorem grouped_entities_sorted_by_position_witness :
    (get_table_constraints
        [⟨"PRIMARY", "PRIMARY KEY", "tenant", 2⟩,
         ⟨"uq_email", "UNIQUE", "domain", 2⟩,
         ⟨"PRIMARY", "PRIMARY KEY", "id", 1⟩,
         ⟨"uq_email", "UNIQUE", "email", 1⟩]).1
      = specSortedByPosition (pkPairs
        [⟨"PRIMARY", "PRIMARY KEY", "id", 1⟩,
         ⟨"PRIMARY", "PRIMARY KEY", "tenant", 2⟩,
         ⟨"uq_email", "UNIQUE", "email", 1⟩,
         ⟨"uq_email", "UNIQUE", "domain", 2⟩]) ∧
    (∀ u ∈ (get_table_constraints
        [⟨"PRIMARY", "PRIMARY KEY", "tenant", 2⟩,
         ⟨"uq_email", "UNIQUE", "domain", 2⟩,
         ⟨"PRIMARY", "PRIMARY KEY", "id", 1⟩,
         ⟨"uq_email", "UNIQUE", "email", 1⟩]).2,
      u.columns = specSortedByPosition (ucPairs u.name
        [⟨"PRIMARY", "PRIMARY KEY", "id", 1⟩,
         ⟨"PRIMARY", "PRIMARY KEY", "tenant", 2⟩,
         ⟨"uq_email", "UNIQUE", "email", 1⟩,
         ⟨"uq_email", "UNIQUE", "domain", 2⟩])) ∧
    (∀ i ∈ get_table_indexes
        [⟨"ix_name", 1, 2, "last"⟩, ⟨"ix_name", 1, 1, "first"⟩],
      i.columns = specSortedByPosition (idxPairs i.name
        [⟨"ix_name", 1, 1, "first"⟩, ⟨"ix_name", 1, 2, "last"⟩])) :=
  grouped_entities_sorted_by_position
    [⟨"PRIMARY", "PRIMARY KEY", "id", 1⟩,
     ⟨"PRIMARY", "PRIMARY KEY", "tenant", 2⟩,
     ⟨"uq_email", "UNIQUE", "email", 1⟩,
     ⟨"uq_email", "UNIQUE", "domain", 2⟩]
    [⟨"PRIMARY", "PRIMARY KEY", "tenant", 2⟩,
     ⟨"uq_email", "UNIQUE", "domain", 2⟩,
     ⟨"PRIMARY", "PRIMARY KEY", "id", 1⟩,
     ⟨"uq_email", "UNIQUE", "email", 1⟩]
    [⟨"ix_name", 1, 1, "first"⟩, ⟨"ix_name", 1, 2, "last"⟩]
    [⟨"ix_name", 1, 2, "last"⟩, ⟨"ix_name", 1, 1, "first"⟩]
    (by decide) (by decide) (by decide) (by decide) (by decide)

/-- The (name, (columns, ref_columns)) projection of the foreign-key
buckets. -/
def fkAssoc (bs : List ForeignKey) :
    List (String × List String × List String) :=
  bs.map (fun b => (b.name, b.columns, b.ref_columns))

/-- The effect of one `get_table_foreign_keys` row on the projected
buckets: create the entry on first sight, then append the row's local and
referenced column to the two parallel lists. -/
def fkPairInsert (ps : List (String × List String × List String))
    (n c rc : String) : List (String × List String × List String) :=
  (if ps.any (fun p => p.1 == n) then ps else ps ++ [(n, [], [])]).map
    (fun p => if p.1 == n then (p.1, p.2.1 ++ [c], p.2.2 ++ [rc]) else p)

theorem fkAssoc_fkInsert (bs : List ForeignKey) (r : FkRow) :
    fkAssoc (fkInsert bs r)
      = fkPairInsert (fkAssoc bs) r.constraint_name r.column_name
          r.ref_column := by
  unfold fkInsert fkPairInsert fkAssoc
  have hany : ∀ cs : List ForeignKey,
      ((cs.map (fun b => (b.name, b.columns, b.ref_columns))).any
        (fun p => p.1 == r.constraint_name))
      = cs.any (fun b => b.name == r.constraint_name) := by
    intro cs
    induction cs with
    | nil => rfl
    | cons c cs ih => simp [List.any_cons, ih]
  rw [hany bs]
  have hpt : ∀ b : ForeignKey,
      (fun b => (b.name, b.columns, b.ref_columns))
        (if b.name == r.constraint_name then
          { b with columns := b.columns ++ [r.column_name],
                   ref_columns := b.ref_columns ++ [r.ref_column] }
        else b)
      = (fun p => if p.1 == r.constraint_name then
          (p.1, p.2.1 ++ [r.column_name], p.2.2 ++ [r.ref_column]) else p)
        ((fun b => (b.name, b.columns, b.ref_columns)) b) := by
    intro b
    cases hc : b.name == r.constraint_name with
    | true => simp [hc]
    | false => simp [hc]
  cases hb : bs.any (fun b => b.name == r.constraint_name) with
  | true =>
    rw [if_pos rfl, if_pos rfl, List.map_map, List.map_map]
    exact List.map_congr_left (fun b _ => hpt b)
  | false =>
    rw [if_neg (by simp), if_neg (by simp), List.map_map, List.map_append,
        List.map_append, List.map_map]
    congr 1
    · exact List.map_congr_left (fun b _ => hpt b)
    · simp

theorem lookup_fkPairInsert_self
    (ps : List (String × List String × List String)) (n c rc : String) :
    (fkPairInsert ps n c rc).lookup n
      = some ((((ps.lookup n).getD ([], [])).1 ++ [c],
               (((ps.lookup n).getD ([], [])).2 ++ [rc]))) := by
  unfold fkPairInsert
  cases ha : ps.any (fun p => p.1 == n) with
  | true =>
    rw [if_pos rfl]
    have hmem := (any_fst_beq ps n).1 ha
    obtain ⟨d, hd⟩ := lookup_isSome_of_mem_keys hmem
    rw [lookup_update_map_self (fun d => (d.1 ++ [c], d.2 ++ [rc])) hd, hd]
    rfl
  | false =>
    rw [if_neg (by simp)]
    have hnot : n ∉ ps.map Prod.fst := fun hmem => by
      rw [(any_fst_beq ps n).2 hmem] at ha
      cases ha
    rw [List.map_append]
    have hid : ∀ qs : List (String × List String × List String),
        (∀ p ∈ qs, p.1 ≠ n) →
        qs.map (fun p => if p.1 == n then
          (p.1, p.2.1 ++ [c], p.2.2 ++ [rc]) else p) = qs := by
      intro qs hqs
      induction qs with
      | nil => rfl
      | cons q qs ih =>
        rw [List.map_cons,
          if_neg (by simpa using hqs q (by simp)),
          ih (fun p hp => hqs p (by simp [hp]))]
    rw [hid ps (fun p hp h => hnot (h ▸ List.mem_map.2 ⟨p, hp, rfl⟩))]
    have hnew : ([((n : String), ([] : List String),
        ([] : List String))].map (fun p => if p.1 == n then
          (p.1, p.2.1 ++ [c], p.2.2 ++ [rc]) else p)) = [(n, [c], [rc])] := by
      rw [List.map_cons, if_pos (by simp)]
      rfl
    rw [hnew, lookup_append_of_none _ (lookup_eq_none_of_not_mem_keys hnot),
      lookup_eq_none_of_not_mem_keys hnot]
    simp [List.lookup]

theorem lookup_fkPairInsert_ne
    (ps : List (String × List String × List String)) {m n : String}
    (c rc : String) (h : m ≠ n) :
    (fkPairInsert ps n c rc).lookup m = ps.lookup m := by
  unfold fkPairInsert
  cases ha : ps.any (fun p => p.1 == n) with
  | true =>
    rw [if_pos rfl]
    exact lookup_update_map_ne (fun d => (d.1 ++ [c], d.2 ++ [rc])) ps h
  | false =>
    rw [if_neg (by simp)]
    have hnot : n ∉ ps.map Prod.fst := fun hmem => by
      rw [(any_fst_beq ps n).2 hmem] at ha
      cases ha
    rw [List.map_append]
    have hid : ∀ qs : List (String × List String × List String),
        (∀ p ∈ qs, p.1 ≠ n) →
        qs.map (fun p => if p.1 == n then
          (p.1, p.2.1 ++ [c], p.2.2 ++ [rc]) else p) = qs := by
      intro qs hqs
      induction qs with
      | nil => rfl
      | cons q qs ih =>
        rw [List.map_cons,
          if_neg (by simpa using hqs q (by simp)),
          ih (fun p hp => hqs p (by simp [hp]))]
    rw [hid ps (fun p hp hh => hnot (hh ▸ List.mem_map.2 ⟨p, hp, rfl⟩))]
    cases hm : ps.lookup m with
    | some d => exact lookup_append_left _ hm
    | none =>
      rw [lookup_append_of_none _ hm]
      have hb : (m == n) = false := by rw [beq_eq_false_iff_ne]; exact h
      have hnew : ([((n : String), ([] : List String),
          ([] : List String))].map (fun p => if p.1 == n then
            (p.1, p.2.1 ++ [c], p.2.2 ++ [rc]) else p)) = [(n, [c], [rc])] := by
        rw [List.map_cons, if_pos (by simp)]
        rfl
      rw [hnew]
      simp [List.lookup, hb]

theorem keys_nodup_fkPairInsert
    {ps : List (String × List String × List String)} {n c rc : String}
    (h : (ps.map Prod.fst).Nodup) :
    ((fkPairInsert ps n c rc).map Prod.fst).Nodup := by
  unfold fkPairInsert
  cases ha : ps.any (fun p => p.1 == n) with
  | true =>
    rw [if_pos rfl,
      keys_update_map (fun d => (d.1 ++ [c], d.2 ++ [rc])) ps n]
    exact h
  | false =>
    rw [if_neg (by simp),
      keys_update_map (fun d => (d.1 ++ [c], d.2 ++ [rc]))
        (ps ++ [(n, [], [])]) n,
      List.map_append]
    have hnot : n ∉ ps.map Prod.fst := fun hmem => by
      rw [(any_fst_beq ps n).2 hmem] at ha
      cases ha
    simp [List.nodup_append, h, hnot]

/-- The effect, on the two parallel lists stored under one constraint
name, of folding the remaining foreign-key rows: the lists are extended
in row order, a missing entry being created at its first row. -/
def fkAfter (o : Option (List String × List String))
    (qs : List (String × String)) : Option (List String × List String) :=
  match o, qs with
  | some d, qs => some (d.1 ++ qs.map Prod.fst, d.2 ++ qs.map Prod.snd)
  | none, [] => none
  | none, q :: qs => some (q.1 :: qs.map Prod.fst, q.2 :: qs.map Prod.snd)

theorem fkPairInsert_fold_lookup :
    ∀ (ts : List (String × String × String))
      (acc : List (String × List String × List String)) (n : String),
      (ts.foldl (fun ps t => fkPairInsert ps t.1 t.2.1 t.2.2) acc).lookup n
        = fkAfter (acc.lookup n)
            ((ts.filter (fun t => t.1 == n)).map (fun t => t.2))
  | [], acc, n => by
    cases h : acc.lookup n <;> simp [fkAfter, h]
  | t :: ts, acc, n => by
    obtain ⟨tn, tc, trc⟩ := t
    rw [List.foldl_cons]
    by_cases htn : tn = n
    · subst htn
      rw [fkPairInsert_fold_lookup ts, lookup_fkPairInsert_self,
          List.filter_cons_of_pos (by simp), List.map_cons]
      cases h : acc.lookup tn <;> simp [fkAfter, h]
    · rw [fkPairInsert_fold_lookup ts,
          lookup_fkPairInsert_ne acc tc trc (Ne.symm htn),
          List.filter_cons_of_neg (by simp [htn])]

theorem fkPairInsert_fold_keys_nodup :
    ∀ (ts : List (String × String × String))
      (acc : List (String × List String × List String)),
      (acc.map Prod.fst).Nodup →
      ((ts.foldl (fun ps t => fkPairInsert ps t.1 t.2.1 t.2.2) acc).map
        Prod.fst).Nodup
  | [], _, h => h
  | t :: ts, acc, h => by
    rw [List.foldl_cons]
    exact fkPairInsert_fold_keys_nodup ts _ (keys_nodup_fkPairInsert h)

theorem fkAssoc_fold (rows : List FkRow) :
    ∀ bs, fkAssoc (rows.foldl fkInsert bs)
      = (rows.map (fun r =>
          (r.constraint_name, r.column_name, r.ref_column))).foldl
          (fun ps t => fkPairInsert ps t.1 t.2.1 t.2.2) (fkAssoc bs) := by
  induction rows with
  | nil => intro bs; rfl
  | cons r rs ih =>
    intro bs
    rw [List.foldl_cons, List.map_cons, List.foldl_cons, ih, fkAssoc_fkInsert]

/-- The (local column, referenced column) pairs of the rows of the
foreign key named `n`, in row-arrival order. -/
def fkPairsFor (n : String) (rows : List FkRow) : List (String × String) :=
  (rows.filter (fun r => r.constraint_name == n)).map
    (fun r => (r.column_name, r.ref_column))

theorem fkPairsFor_eq (n : String) (rows : List FkRow) :
    (((rows.map (fun r =>
        (r.constraint_name, r.column_name, r.ref_column))).filter
        (fun t => t.1 == n)).map (fun t => t.2))
      = fkPairsFor n rows := by
  induction rows with
  | nil => rfl
  | cons r rs ih =>
    by_cases h : r.constraint_name = n
    · rw [List.map_cons, List.filter_cons_of_pos (by simp [h]),
        List.map_cons, ih]
      unfold fkPairsFor
      rw [List.filter_cons_of_pos (by simp [h]), List.map_cons]
    · rw [List.map_cons, List.filter_cons_of_neg (by simp [h]), ih]
      unfold fkPairsFor
      rw [List.filter_cons_of_neg (by simp [h])]

theorem fk_entry_characterization {rows : List FkRow} {fk : ForeignKey}
    (hfk : fk ∈ get_table_foreign_keys rows) :
    fk.columns = (fkPairsFor fk.name rows).map Prod.fst ∧
    fk.ref_columns = (fkPairsFor fk.name rows).map Prod.snd := by
  have hassoc : (fk.name, fk.columns, fk.ref_columns)
      ∈ fkAssoc (rows.foldl fkInsert []) :=
    List.mem_map.2 ⟨fk, hfk, rfl⟩
  have hkeys : ((fkAssoc (rows.foldl fkInsert [])).map Prod.fst).Nodup := by
    rw [fkAssoc_fold]
    exact fkPairInsert_fold_keys_nodup _ _ (by simp [fkAssoc])
  have hlk := lookup_eq_some_of_mem_nodup hassoc hkeys
  rw [fkAssoc_fold, fkPairInsert_fold_lookup, fkPairsFor_eq] at hlk
  cases hq : fkPairsFor fk.name rows with
  | nil => rw [hq] at hlk; cases hlk
  | cons q qs =>
    rw [hq] at hlk
    injection hlk with h
    constructor
    · exact (congrArg Prod.fst h).symm
    · exact (congrArg Prod.snd h).symm

theorem idxInsert_names (bs : List IndexBucket) (r : IndexRow) :
    (idxInsert bs r).map (fun b => b.name)
      = if bs.any (fun b => b.name == r.index_name) then
          bs.map (fun b => b.name)
        else bs.map (fun b => b.name) ++ [r.index_name] := by
  unfold idxInsert
  cases ha : bs.any (fun b => b.name == r.index_name) with
  | true =>
    rw [if_pos rfl, if_pos rfl, List.map_map]
    apply List.map_congr_left
    intro b _
    cases hc : b.name == r.index_name with
    | true =>
      have hp : b.name = r.index_name := by simpa using hc
      simp [hc, hp]
    | false =>
      have hp : b.name ≠ r.index_name := by simpa using hc
      simp [hc, hp]
  | false =>
    rw [if_neg (by simp), if_neg (by simp), List.map_append]
    rfl

theorem idx_fold_names_mono :
    ∀ (rows : List IndexRow) (bs : List IndexBucket) (n : String),
      n ∈ bs.map (fun b => b.name) →
      n ∈ (rows.foldl idxInsert bs).map (fun b => b.name)
  | [], _, _, h => h
  | r :: rs, bs, n, h => by
    rw [List.foldl_cons]
    apply idx_fold_names_mono rs
    rw [idxInsert_names]
    by_cases ha : (bs.any (fun b => b.name == r.index_name)) = true
    · rw [if_pos ha]; exact h
    · rw [if_neg ha]; exact List.mem_append_left _ h

theorem idxInsert_name_self (bs : List IndexBucket) (r : IndexRow) :
    r.index_name ∈ (idxInsert bs r).map (fun b => b.name) := by
  rw [idxInsert_names]
  by_cases ha : (bs.any (fun b => b.name == r.index_name)) = true
  · rw [if_pos ha]
    obtain ⟨b, hb, hbn⟩ := List.any_eq_true.1 ha
    exact List.mem_map.2 ⟨b, hb, by simpa using hbn⟩
  · rw [if_neg ha]
    exact List.mem_append_right _ (by simp)

theorem idx_fold_names_self :
    ∀ (rows : List IndexRow) (bs : List IndexBucket) (r : IndexRow),
      r ∈ rows →
      r.index_name ∈ (rows.foldl idxInsert bs).map (fun b => b.name)
  | r' :: rs, bs, r, h => by
    rw [List.foldl_cons]
    rcases List.mem_cons.1 h with heq | h
    · rw [heq]
      exact idx_fold_names_mono rs _ _ (idxInsert_name_self bs r')
    · exact idx_fold_names_self rs _ r h

/-- C4: the secondary-index list never contains an entry whose name
upper-cases to `PRIMARY`, and every other index name present in the input
rows appears in the output. -/
theorem indexes_exclude_primary (rows : List IndexRow) :
    (∀ i ∈ get_table_indexes rows, pyUpper i.name ≠ "PRIMARY") ∧
    (∀ r ∈ rows, pyUpper r.index_name ≠ "PRIMARY" →
      ∃ i ∈ get_table_indexes rows, i.name = r.index_name) := by
  constructor
  · intro i hi
    simp only [get_table_indexes] at hi
    obtain ⟨b, hb, hib⟩ := List.mem_map.1 hi
    have hf := (List.mem_filter.1 hb).2
    have hbn : pyUpper b.name ≠ "PRIMARY" := by simpa using hf
    have hni : i.name = b.name := by rw [← hib]
    rw [hni]
    exact hbn
  · intro r hr hpr
    have hmem : r.index_name ∈ (rows.foldl idxInsert []).map
        (fun b => b.name) :=
      idx_fold_names_self rows [] r hr
    obtain ⟨b, hb, hbn⟩ := List.mem_map.1 hmem
    refine ⟨{ name := b.name, unique := b.unique, columns := sortedFlatten b.columns }, ?_, hbn⟩
    simp only [get_table_indexes]
    apply List.mem_map.2
    refine ⟨b, ?_, rfl⟩
    apply List.mem_filter.2
    refine ⟨hb, ?_⟩
    have hb' : pyUpper b.name ≠ "PRIMARY" := by rw [hbn]; exact hpr
    simpa using hb'

theorem indexes_exclude_primary_witness :
    (∀ i ∈ get_table_indexes
        [⟨"PRIMARY", 0, 1, "id"⟩, ⟨"ix_a", 1, 1, "a"⟩],
      pyUpper i.name ≠ "PRIMARY") ∧
    (∃ i ∈ get_table_indexes
        [⟨"PRIMARY", 0, 1, "id"⟩, ⟨"ix_a", 1, 1, "a"⟩],
      i.name = "ix_a") :=
  ⟨(indexes_exclude_primary
      [⟨"PRIMARY", 0, 1, "id"⟩, ⟨"ix_a", 1, 1, "a"⟩]).1,
   (indexes_exclude_primary
      [⟨"PRIMARY", 0, 1, "id"⟩, ⟨"ix_a", 1, 1, "a"⟩]).2
      ⟨"ix_a", 1, 1, "a"⟩ (by decide) (by decide)⟩

/-- C2 refuted: swapping the arrival order of the two rows of one foreign
key swaps its column list, so the foreign-key column list depends on the
order rows arrive and is not reassembled by ascending position. -/
theorem fk_columns_order_dependent_counterexample :
    List.Perm
      [(⟨"fk1", "b", "t", "y", "NO ACTION", "CASCADE"⟩ : FkRow),
       ⟨"fk1", "a", "t", "x", "NO ACTION", "CASCADE"⟩]
      [⟨"fk1", "a", "t", "x", "NO ACTION", "CASCADE"⟩,
       ⟨"fk1", "b", "t", "y", "NO ACTION", "CASCADE"⟩] ∧
    (get_table_foreign_keys
      [⟨"fk1", "a", "t", "x", "NO ACTION", "CASCADE"⟩,
       ⟨"fk1", "b", "t", "y", "NO ACTION", "CASCADE"⟩]).map
        (fun fk => fk.columns) = [["a", "b"]] ∧
    (get_table_foreign_keys
      [⟨"fk1", "b", "t", "y", "NO ACTION", "CASCADE"⟩,
       ⟨"fk1", "a", "t", "x", "NO ACTION", "CASCADE"⟩]).map
        (fun fk => fk.columns) = [["b", "a"]] ∧
    get_table_foreign_keys
      [⟨"fk1", "a", "t", "x", "NO ACTION", "CASCADE"⟩,
       ⟨"fk1", "b", "t", "y", "NO ACTION", "CASCADE"⟩]
      ≠ get_table_foreign_keys
      [⟨"fk1", "b", "t", "y", "NO ACTION", "CASCADE"⟩,
       ⟨"fk1", "a", "t", "x", "NO ACTION", "CASCADE"⟩] := by
  decide

/-- C2 (amended): each foreign key's column list is assembled in
row-arrival (insertion) order — the rows carry no position column — so it
equals the local column names of that constraint's rows in input order,
and in general depends on the arrival order. -/
theorem fk_columns_insertion_order (rows : List FkRow) :
    ∀ fk ∈ get_table_foreign_keys rows,
      fk.columns = (rows.filter
        (fun r => r.constraint_name == fk.name)).map
        (fun r => r.column_name) := by
  intro fk hfk
  rw [(fk_entry_characterization hfk).1]
  unfold fkPairsFor
  rw [List.map_map]
  rfl

theorem fk_columns_insertion_order_witness :
    (⟨"fk1", ["b", "a"], "t", ["y", "x"], "NO ACTION", "CASCADE"⟩
        : ForeignKey).columns
      = (([⟨"fk1", "b", "t", "y", "NO ACTION", "CASCADE"⟩,
           ⟨"fk1", "a", "t", "x", "NO ACTION", "CASCADE"⟩] : List FkRow).filter
          (fun r => r.constraint_name ==
            (⟨"fk1", ["b", "a"], "t", ["y", "x"], "NO ACTION", "CASCADE"⟩
              : ForeignKey).name)).map (fun r => r.column_name) :=
  fk_columns_insertion_order
    [⟨"fk1", "b", "t", "y", "NO ACTION", "CASCADE"⟩,
     ⟨"fk1", "a", "t", "x", "NO ACTION", "CASCADE"⟩]
    ⟨"fk1", ["b", "a"], "t", ["y", "x"], "NO ACTION", "CASCADE"⟩
    (by decide)

/-- C3: each foreign key's local and referenced column lists have equal
length, and the pair at each index comes from the same input row: the
zip of the two lists is the (local, referenced) projection of that
constraint's rows in input order. -/
theorem fk_parallel_lists_aligned (rows : List FkRow) :
    ∀ fk ∈ get_table_foreign_keys rows,
      fk.columns.length = fk.ref_columns.length ∧
      fk.columns.zip fk.ref_columns
        = (rows.filter (fun r => r.constraint_name == fk.name)).map
            (fun r => (r.column_name, r.ref_column)) := by
  intro fk hfk
  obtain ⟨h1, h2⟩ := fk_entry_characterization hfk
  constructor
  · rw [h1, h2, List.length_map, List.length_map]
  · rw [h1, h2, List.zip_map']
    unfold fkPairsFor
    rw [List.map_map]
    rfl

theorem fk_parallel_lists_aligned_witness :
    ((⟨"fk1", ["b", "a"], "t", ["y", "x"], "NO ACTION", "CASCADE"⟩
        : ForeignKey).columns.length
      = (⟨"fk1", ["b", "a"], "t", ["y", "x"], "NO ACTION", "CASCADE"⟩
        : ForeignKey).ref_columns.length) ∧
    ((⟨"fk1", ["b", "a"], "t", ["y", "x"], "NO ACTION", "CASCADE"⟩
        : ForeignKey).columns.zip
      (⟨"fk1", ["b", "a"], "t", ["y", "x"], "NO ACTION", "CASCADE"⟩
        : ForeignKey).ref_columns
      = (([⟨"fk1", "b", "t", "y", "NO ACTION", "CASCADE"⟩,
           ⟨"fk1", "a", "t", "x", "NO ACTION", "CASCADE"⟩] : List FkRow).filter
          (fun r => r.constraint_name ==
            (⟨"fk1", ["b", "a"], "t", ["y", "x"], "NO ACTION", "CASCADE"⟩
              : ForeignKey).name)).map
          (fun r => (r.column_name, r.ref_column))) :=
  fk_parallel_lists_aligned
    [⟨"fk1", "b", "t", "y", "NO ACTION", "CASCADE"⟩,
     ⟨"fk1", "a", "t", "x", "NO ACTION", "CASCADE"⟩]
    ⟨"fk1", ["b", "a"], "t", ["y", "x"], "NO ACTION", "CASCADE"⟩
    (by decide)

/-- C7: configuration resolution is a pure function of its four optional
sources and returns the first present value in the order CLI argument,
environment variable, config-file entry, hard default. -/
theorem config_precedence_first_present
    (cli : Option String) (env : String → Option String) (evar : String)
    (cf : Option (String → String → Option String)) (sect key : String)
    (dflt : Option String) :
    (∀ v, cli = some v →
      get_config_value cli env evar cf sect key dflt = some v) ∧
    (cli = none → ∀ w, env evar = some w →
      get_config_value cli env evar cf sect key dflt = some w) ∧
    (cli = none → env evar = none → ∀ f u, cf = some f → f sect key = some u →
      get_config_value cli env evar cf sect key dflt = some u) ∧
    (cli = none → env evar = none → cf.bind (fun f => f sect key) = none →
      get_config_value cli env evar cf sect key dflt = dflt) := by
  refine ⟨fun v hv => ?_, fun h w hw => ?_, fun h he f u hf hu => ?_,
    fun h he hb => ?_⟩
  · subst hv; rfl
  · subst h; simp [get_config_value, hw]
  · subst h; subst hf; simp [get_config_value, he, hu]
  · subst h
    cases cf with
    | none => simp [get_config_value, he]
    | some f =>
      simp only [Option.some_bind] at hb
      simp [get_config_value, he, hb]

theorem config_precedence_first_present_witness :
    get_config_value (some "cli") (fun _ => some "env") "DB_HOST"
      (some (fun _ _ => some "file")) "database" "host" (some "dflt") =
        some "cli" ∧
    get_config_value none (fun _ => some "env") "DB_HOST"
      (some (fun _ _ => some "file")) "database" "host" (some "dflt") =
        some "env" ∧
    get_config_value none (fun _ => none) "DB_HOST"
      (some (fun _ _ => some "file")) "database" "host" (some "dflt") =
        some "file" ∧
    get_config_value none (fun _ => none) "DB_HOST" none "database" "host"
      (some "dflt") = some "dflt" :=
  ⟨(config_precedence_first_present (some "cli") (fun _ => some "env")
      "DB_HOST" (some (fun _ _ => some "file")) "database" "host"
      (some "dflt")).1 "cli" rfl,
   (config_precedence_first_present none (fun _ => some "env") "DB_HOST"
      (some (fun _ _ => some "file")) "database" "host" (some "dflt")).2.1
      rfl "env" rfl,
   (config_precedence_first_present none (fun _ => none) "DB_HOST"
      (some (fun _ _ => some "file")) "database" "host" (some "dflt")).2.2.1
      rfl rfl (fun _ _ => some "file") "file" rfl rfl,
   (config_precedence_first_present none (fun _ => none) "DB_HOST" none
      "database" "host" (some "dflt")).2.2.2 rfl rfl rfl⟩

/-- C9: when the catalog returns no row, `get_table_info` falls back to a
record with `row_count_est`, `engine` and `collation` all null, and
`get_table_ddl` falls back to the empty string. -/
theorem missing_row_fallbacks :
    get_table_info none =
      { row_count_est := none, engine := none, collation := none } ∧
    get_table_ddl none = "" :=
  ⟨rfl, rfl⟩

/-- C10: presence in `get_config_value` means `is not None`, not
non-emptiness: a CLI argument or environment variable holding the empty
string is returned as is, shadowing the config-file entry and the
default. -/
theorem empty_string_counts_as_present
    (env : String → Option String) (evar : String)
    (cf : Option (String → String → Option String)) (sect key : String)
    (dflt : Option String) :
    get_config_value (some "") env evar cf sect key dflt = some "" ∧
    (env evar = some "" →
      get_config_value none env evar cf sect key dflt = some "") := by
  constructor
  · rfl
  · intro h; simp [get_config_value, h]

theorem empty_string_counts_as_present_witness :
    get_config_value none (fun v => if v == "DB_PASS" then some "" else none)
      "DB_PASS"
      (some (fun s k =>
        if s == "database" && k == "password" then some "secret" else none))
      "database" "password" (some "") = some "" :=
  (empty_string_counts_as_present
    (fun v => if v == "DB_PASS" then some "" else none) "DB_PASS"
    (some (fun s k =>
      if s == "database" && k == "password" then some "secret" else none))
    "database" "password" (some "")).2 rfl

/-- A regular-expression AST for the table-filter feature; `dot` is `.`
and `star r` is `r*`, so the default filter `.*` is `star dot`.  Models
the fragment of Python `re` the program relies on. -/
inductive Regex : Type
  | emp : Regex
  | eps : Regex
  | chr : Char → Regex
  | dot : Regex
  | alt : Regex → Regex → Regex
  | cat : Regex → Regex → Regex
  | star : Regex → Regex
deriving DecidableEq, Repr

/-- Does the regex accept the empty string? -/
def Regex.nullable : Regex → Bool
  | .emp => false
  | .eps => true
  | .chr _ => false
  | .dot => false
  | .alt r s => r.nullable || s.nullable
  | .cat r s => r.nullable && s.nullable
  | .star _ => true

/-- Alternation with `emp` absorbed, keeping derivatives small. -/
def Regex.mkAlt : Regex → Regex → Regex
  | .emp, s => s
  | r, .emp => r
  | r, s => .alt r s

/-- Concatenation with `emp` and `eps` absorbed. -/
def Regex.mkCat : Regex → Regex → Regex
  | .emp, _ => .emp
  | _, .emp => .emp
  | .eps, s => s
  | r, .eps => r
  | r, s => .cat r s

/-- Brzozowski derivative of a regex by one character. -/
def Regex.deriv : Regex → Char → Regex
  | .emp, _ => .emp
  | .eps, _ => .emp
  | .chr c, a => if a == c then .eps else .emp
  | .dot, _ => .eps
  | .alt r s, a => mkAlt (r.deriv a) (s.deriv a)
  | .cat r s, a =>
    if r.nullable then mkAlt (mkCat (r.deriv a) s) (s.deriv a)
    else mkCat (r.deriv a) s
  | .star r, a => mkCat (r.deriv a) (.star r)

/-- Whole-string acceptance by iterated derivatives. -/
def Regex.rmatch : Regex → List Char → Bool
  | r, [] => r.nullable
  | r, c :: cs => (r.deriv c).rmatch cs

/-- Python `re.match` as a Boolean: the compiled pattern matches at
position 0, i.e. accepts some prefix of the string. -/
def reMatch (r : Regex) (s : String) : Bool :=
  (List.range (s.data.length + 1)).any (fun k => r.rmatch (s.data.take k))

theorem starDot_rmatch (l : List Char) :
    Regex.rmatch (Regex.star Regex.dot) l = true := by
  induction l with
  | nil => rfl
  | cons c cs ih => exact ih

theorem reMatch_starDot (s : String) :
    reMatch (Regex.star Regex.dot) s = true := by
  unfold reMatch
  rw [List.any_eq_true]
  exact ⟨0, by simp, starDot_rmatch (s.data.take 0)⟩

/-- The table loop's selection in `main`: keep the base tables whose name
the compiled pattern matches at the start. -/
def filterTables (pat : Regex) (tables : List String) : List String :=
  tables.filter (fun t => reMatch pat t)

/-- The per-table catalog row sets handed to the six per-table
accessors. -/
structure TableCatalog where
  colRows : List ColRow
  constraintRows : List ConstraintRow
  indexRows : List IndexRow
  fkRows : List FkRow
  infoRow : Option InfoRow
  ddlRow : Option (List (String × String))

/-- One element of `tables_out` in `main`. -/
structure TableRecord where
  name : String
  columns : List Column
  primary_key : List String
  unique : List UniqueConstraint
  indexes : List IndexOut
  foreign_keys : List ForeignKey
  table_info : TableInfo
  ddl : String
deriving DecidableEq

/-- The body of the table loop in `main`: one record from the six
per-table accessors. -/
def processTable (cat : TableCatalog) (t : String) : TableRecord :=
  { name := t,
    columns := get_table_columns cat.colRows,
    primary_key := (get_table_constraints cat.constraintRows).1,
    unique := (get_table_constraints cat.constraintRows).2,
    indexes := get_table_indexes cat.indexRows,
    foreign_keys := get_table_foreign_keys cat.fkRows,
    table_info := get_table_info cat.infoRow,
    ddl := get_table_ddl cat.ddlRow }

/-- The export document (`output` in `main`); `generated_at` is the
run-time timestamp, passed in as a parameter. -/
structure ExportDoc where
  database : String
  generated_at : String
  schema_version : String
  tables : List TableRecord
deriving DecidableEq

/-- The filter-and-process loop plus document assembly of `main`. -/
def buildExport (db gen ver : String) (pat : Regex) (tables : List String)
    (cat : String → TableCatalog) : ExportDoc :=
  { database := db, generated_at := gen, schema_version := ver,
    tables := (filterTables pat tables).map (fun t => processTable (cat t) t) }

/-- Modelled from the spec: "a filter matching zero tables produces a
valid document with an empty table list" — the export document whose
table list is empty. -/
def emptyExport (db gen ver : String) : ExportDoc :=
  { database := db, generated_at := gen, schema_version := ver, tables := [] }

/-- Python `s.startswith(c)` for a one-character prefix. -/
def pyStartsWith1 (s : String) (c : Char) : Bool := s.data.head? == some c

/-- Python `s.endswith(c)` for a one-character suffix. -/
def pyEndsWith1 (s : String) (c : Char) : Bool := s.data.getLast? == some c

/-- The PHP-delimiter conversion in `main`: a filter wrapped in leading and
trailing `/` loses them (Python slice `[1:-1]`), once. -/
def resolveFilter (s : String) : String :=
  if pyStartsWith1 s '/' && pyEndsWith1 s '/' then ⟨(s.data.drop 1).dropLast⟩
  else s

/-- The table selection `main` makes for a given filter string, for an
arbitrary pattern compiler (`re.compile` is external; the equivalence
below holds for every compiler): strip delimiters, compile, keep the
start-anchored matches. -/
def selectTables (compile : String → Regex) (filterStr : String)
    (tables : List String) : List String :=
  filterTables (compile (resolveFilter filterStr)) tables

/-- Python `re.compile` restricted to patterns made of plain literal characters
(no metacharacters), which Python matches verbatim. -/
def compileLit (s : String) : Regex :=
  s.data.foldr (fun c r => Regex.cat (Regex.chr c) r) Regex.eps

/-- C5: the table filter is applied as a start-anchored match: the
default `.*` keeps every base table; a table is kept exactly when the
compiled pattern matches at the start of its name; and a pattern matching
no table still yields the well-formed export document with an empty
table list. -/
theorem table_filter_start_anchored (tables : List String)
    (cat : String → TableCatalog) (db gen ver : String) (pat : Regex) :
    filterTables (Regex.star Regex.dot) tables = tables ∧
    (∀ t, t ∈ filterTables pat tables ↔
      t ∈ tables ∧ reMatch pat t = true) ∧
    ((∀ t ∈ tables, reMatch pat t = false) →
      buildExport db gen ver pat tables cat = emptyExport db gen ver) := by
  refine ⟨?_, ?_, ?_⟩
  · unfold filterTables
    exact List.filter_eq_self.2 (fun t _ => reMatch_starDot t)
  · intro t
    unfold filterTables
    simp [List.mem_filter]
  · intro h
    unfold buildExport emptyExport
    have hnil : filterTables pat tables = [] := by
      unfold filterTables
      exact List.filter_eq_nil_iff.2 (fun t ht => by simp [h t ht])
    rw [hnil]
    rfl

theorem table_filter_start_anchored_witness :
    buildExport "db" "2026-10-12" "v1" (Regex.chr 'z') ["accounts"]
        (fun _ => ⟨[], [], [], [], none, none⟩)
      = emptyExport "db" "2026-10-12" "v1" :=
  (table_filter_start_anchored ["accounts"]
    (fun _ => ⟨[], [], [], [], none, none⟩) "db" "2026-10-12" "v1"
    (Regex.chr 'z')).2.2 (by decide)

theorem resolveFilter_wrap (p : String)
    (h : ¬(pyStartsWith1 p '/' = true ∧ pyEndsWith1 p '/' = true)) :
    resolveFilter ("/" ++ p ++ "/") = p ∧ resolveFilter p = p := by
  have hdata : ("/" ++ p ++ "/").data = '/' :: (p.data ++ ['/']) := rfl
  constructor
  · unfold resolveFilter
    have hcond : (pyStartsWith1 ("/" ++ p ++ "/") '/'
        && pyEndsWith1 ("/" ++ p ++ "/") '/') = true := by
      unfold pyStartsWith1 pyEndsWith1
      rw [hdata]
      have : ('/' :: (p.data ++ ['/'])).getLast? = some '/' := by
        rw [show ('/' :: (p.data ++ ['/'])) = ('/' :: p.data) ++ ['/'] from by
          simp]
        exact List.getLast?_concat _
      simp [this]
    rw [if_pos hcond, hdata]
    show String.mk ((p.data ++ ['/']).dropLast) = p
    rw [List.dropLast_concat]
  · unfold resolveFilter
    have hcond : (pyStartsWith1 p '/' && pyEndsWith1 p '/') = false := by
      cases h1 : pyStartsWith1 p '/' <;> cases h2 : pyEndsWith1 p '/' <;>
        simp_all
    rw [hcond]
    simp

/-- C8 refuted: for a pattern that is itself wrapped in `/` — here the
literal pattern `/x/` — adding another delimiter pair changes the
compiled pattern (only one outer layer is stripped), so the selections
differ on the table list `["x"]`. -/
theorem filter_delimiter_stripping_counterexample :
    ("/" ++ "/x/" ++ "/") = "//x//" ∧
    selectTables compileLit "/x/" ["x"] = ["x"] ∧
    selectTables compileLit "//x//" ["x"] = [] ∧
    selectTables compileLit ("/" ++ "/x/" ++ "/") ["x"]
      ≠ selectTables compileLit "/x/" ["x"] := by
  decide

/-- C8 (amended): for every pattern compiler and every pattern `p` that
is not itself wrapped in leading and trailing `/`, the filter string
`'/' + p + '/'` yields the same table selection as `p`: the delimiters
are stripped once before compilation. -/
theorem filter_delimiter_stripping (compile : String → Regex) (p : String)
    (tables : List String)
    (h : ¬(pyStartsWith1 p '/' = true ∧ pyEndsWith1 p '/' = true)) :
    selectTables compile ("/" ++ p ++ "/") tables
      = selectTables compile p tables := by
  unfold selectTables
  rw [(resolveFilter_wrap p h).1, (resolveFilter_wrap p h).2]

theorem filter_delimiter_stripping_witness :
    selectTables (fun _ => Regex.star Regex.dot) ("/" ++ "user_.*" ++ "/")
        ["users", "orders"]
      = selectTables (fun _ => Regex.star Regex.dot) "user_.*"
        ["users", "orders"] :=
  filter_delimiter_stripping (fun _ => Regex.star Regex.dot) "user_.*"
    ["users", "orders"] (by decide)

/-- The observable side effects of `main`, in program order.
`raiseError` is an uncaught Python exception: the interpreter prints a
traceback to stderr and terminates with status 1. -/
inductive Effect : Type
  | print : String → Effect
  | exitCode : Nat → Effect
  | raiseError : String → Effect
  | mkdirOutput : String → Effect
  | connect : Effect
  | query : Effect
  | writeFile : String → Effect
deriving DecidableEq, Repr

/-- The parsed command-line arguments (`parse_args`).  `--port` is
declared with `type=int`, so a present CLI port is already a valid
integer here (argparse itself rejects a non-numeric `--port`, exiting
with status 2 before `main`'s body runs, outside this model). -/
structure Args where
  help : Bool
  host : Option String
  database : Option String
  user : Option String
  password : Option String
  port : Option Int
  output : Option String
  filter : Option String

/-- The outcome of `load_config_file`: the file is absent (returns `{}`
silently), present but unparsable (returns `{}` after printing a
warning), or parsed into a section/key lookup. -/
inductive ConfigFile : Type
  | missing : ConfigFile
  | unparsable : ConfigFile
  | parsed : (String → String → Option String) → ConfigFile

/-- The section/key lookup `get_config_value` sees: a falsy `{}` (absent
or unparsable file) behaves as no config file at all. -/
def ConfigFile.lookup : ConfigFile → Option (String → String → Option String)
  | .parsed f => some f
  | _ => none

/-- The warning `load_config_file` prints when `config.ini` exists but
cannot be parsed (the appended exception text of the f-string is
elided). -/
def configWarningEffects : ConfigFile → List Effect
  | .unparsable =>
    [.print "Warning: Could not parse config file config.ini"]
  | _ => []

/-- The external world `main` runs against: environment, the
`load_config_file` outcome, whether Python `int()` succeeds on a string
(the port conversion), whether `re.compile` succeeds, the compiled
pattern's match behaviour, whether the connection and the file write
succeed, and the base-table listing. -/
structure World where
  env : String → Option String
  config : ConfigFile
  intOk : String → Bool
  regexOk : String → Bool
  patMatch : String → String → Bool
  connectOk : Bool
  tables : List String
  writeOk : Bool

/-- The prints of `show_help` (one effect per `print` call). -/
def showHelpEffects : List Effect :=
  [.print "MySQL Schema Export Utility\n",
   .print "Usage: python export-schema.py [OPTIONS]\n",
   .print "Options:",
   .print "  --host HOST          Database host (default: localhost)",
   .print "  --database DB        Database name (required)",
   .print "  --user USER          Database user (required)",
   .print "  --password PASS      Database password",
   .print "  --port PORT          Database port (default: 3306)",
   .print "  --output DIR         Output directory (default: ./export)",
   .print "  --filter REGEX       Table name filter regex (default: .* for all tables)",
   .print "  --help, -h           Show this help message\n",
   .print "Environment Variables:",
   .print "  DB_HOST, DB_NAME, DB_USER, DB_PASS, DB_PORT",
   .print "  OUTPUT_DIR, TABLE_NAME_REGEXP, SCHEMA_VERSION\n",
   .print "Examples:",
   .print "  python export-schema.py --database mydb --user root",
   .print "  python export-schema.py --db mydb --user root --filter 'user_.*'",
   .print "  DB_NAME=mydb DB_USER=root python export-schema.py"]

/-- The effect trace of `main`, following the source's branching
structure and effect order: help; config-file load (line 285, possibly
printing a parse warning); resolution of the settings; `int()` on the
resolved port (line 292 — a non-numeric value raises `ValueError` there,
before the required-settings check at line 303); the required-settings
check; regex validation; directory creation; connection; the table loop
(one `SHOW FULL TABLES` query, then six catalog queries per matching
table); and the file write.  Per-table progress counters and the final
size report are elided from the print payloads. -/
def mainTrace (args : Args) (w : World) : List Effect :=
  if args.help then showHelpEffects ++ [.exitCode 0]
  else
    configWarningEffects w.config ++
    (let db_host := (get_config_value args.host w.env "DB_HOST"
       w.config.lookup "database" "host" (some "localhost")).getD ""
     let db_name := (get_config_value args.database w.env "DB_NAME"
       w.config.lookup "database" "name" (some "")).getD ""
     let db_user := (get_config_value args.user w.env "DB_USER"
       w.config.lookup "database" "user" (some "")).getD ""
     let db_port_raw := (get_config_value (args.port.map toString) w.env
       "DB_PORT" w.config.lookup "database" "port" (some "3306")).getD ""
     if !(w.intOk db_port_raw) then
       [.raiseError "ValueError: invalid literal for int()", .exitCode 1]
     else
       let table_filter0 := (get_config_value args.filter w.env
         "TABLE_NAME_REGEXP" w.config.lookup "export" "table_filter"
         (some ".*")).getD ""
       let output_dir := (get_config_value args.output w.env "OUTPUT_DIR"
         w.config.lookup "export" "output_dir" (some "./export")).getD ""
       let table_filter := resolveFilter table_filter0
       if db_name = "" ∨ db_user = "" then
         [.print "Error: Database name and user are required.",
          .print "Use --database and --user arguments, or set DB_NAME and DB_USER environment variables.",
          .print "Run 'python export-schema.py --help' for usage information.",
          .exitCode 1]
       else if !(w.regexOk table_filter) then
         [.print ("Error: Invalid regex pattern in table filter: "
            ++ table_filter),
          .exitCode 1]
       else
         [.mkdirOutput output_dir] ++
         (if !w.connectOk then
           [.print "Connection failed", .exitCode 1]
         else
           [.connect,
            .print ("Connected to database: " ++ db_name ++ "@" ++ db_host),
            .query,
            .print ("Processing tables with filter: " ++ table_filter
              ++ "...")]
           ++ ((w.tables.filter (fun t => w.patMatch table_filter t)).map
               (fun t => [.print ("Processing table: " ++ t),
                 .query, .query, .query, .query, .query, .query])).flatten
           ++ (if w.writeOk then
               [.writeFile (output_dir ++ "/schema_" ++ db_name ++ ".json"),
                .print ("Export complete: " ++ output_dir ++ "/schema_"
                  ++ db_name ++ ".json"),
                .print "Exported tables"]
             else
               [.print ("Error: Failed to write output file "
                  ++ output_dir ++ "/schema_" ++ db_name ++ ".json"),
                .exitCode 1])))

theorem mem_configWarningEffects {c : ConfigFile} {e : Effect}
    (h : e ∈ configWarningEffects c) :
    e = .print "Warning: Could not parse config file config.ini" := by
  cases c <;> simp_all [configWarningEffects]

/-- C6 refuted as stated: with the database name and user missing but
`DB_PORT` set to the non-numeric `"abc"` (a world where `int()` fails on
`"abc"`, as Python's does), the run dies in the `int()` call at line 292
with a `ValueError` traceback — before the required-settings check at
line 303 — so no usage message is printed. -/
theorem missing_config_bad_port_counterexample :
    mainTrace ⟨false, none, none, none, none, none, none, none⟩
        ⟨fun v => if v == "DB_PORT" then some "abc" else none,
         .missing, fun s => !(s == "abc"), fun _ => true, fun _ _ => true,
         true, ["accounts"], true⟩
      = [.raiseError "ValueError: invalid literal for int()",
         .exitCode 1] ∧
    Effect.print "Error: Database name and user are required."
      ∉ mainTrace ⟨false, none, none, none, none, none, none, none⟩
        ⟨fun v => if v == "DB_PORT" then some "abc" else none,
         .missing, fun s => !(s == "abc"), fun _ => true, fun _ _ => true,
         true, ["accounts"], true⟩ := by
  decide

/-- C6 (amended): if after four-tier resolution the database name or the
user is empty, and the resolved port value converts to an integer (a
non-numeric port raises `ValueError` at line 292, before the check, with
no usage message), `main` prints the three-line usage message and exits
with status 1; besides a possible config-file parse warning nothing else
happens — no directory creation, no connection, no query, no file write,
and no exception. -/
theorem missing_required_config_aborts (args : Args) (w : World)
    (hhelp : args.help = false)
    (hport : w.intOk ((get_config_value (args.port.map toString) w.env
        "DB_PORT" w.config.lookup "database" "port" (some "3306")).getD "")
      = true)
    (hmiss : (get_config_value args.database w.env "DB_NAME"
        w.config.lookup "database" "name" (some "")).getD "" = ""
      ∨ (get_config_value args.user w.env "DB_USER" w.config.lookup
        "database" "user" (some "")).getD "" = "") :
    mainTrace args w
      = configWarningEffects w.config
        ++ [.print "Error: Database name and user are required.",
            .print "Use --database and --user arguments, or set DB_NAME and DB_USER environment variables.",
            .print "Run 'python export-schema.py --help' for usage information.",
            .exitCode 1] ∧
    (∀ e ∈ mainTrace args w, (∀ d, e ≠ .mkdirOutput d) ∧ e ≠ .connect ∧
      e ≠ .query ∧ (∀ f, e ≠ .writeFile f) ∧ (∀ m, e ≠ .raiseError m)) := by
  have htr : mainTrace args w
      = configWarningEffects w.config
        ++ [.print "Error: Database name and user are required.",
            .print "Use --database and --user arguments, or set DB_NAME and DB_USER environment variables.",
            .print "Run 'python export-schema.py --help' for usage information.",
            .exitCode 1] := by
    unfold mainTrace
    rw [if_neg (by simp [hhelp])]
    congr 1
    rw [if_neg (by simp [hport]), if_pos hmiss]
  refine ⟨htr, ?_⟩
  rw [htr]
  intro e he
  rcases List.mem_append.1 he with h | h
  · rw [mem_configWarningEffects h]
    exact ⟨fun d => by simp, by simp, by simp, fun f => by simp,
      fun m => by simp⟩
  · simp only [List.mem_cons, List.not_mem_nil, or_false] at h
    rcases h with rfl | rfl | rfl | rfl <;>
      exact ⟨fun d => by simp, by simp, by simp, fun f => by simp,
        fun m => by simp⟩

theorem missing_required_config_aborts_witness :
    mainTrace ⟨false, none, none, none, none, none, none, none⟩
        ⟨fun _ => none, ConfigFile.missing, fun s => s == "3306",
         fun _ => true, fun _ _ => true, true, ["accounts"], true⟩
      = configWarningEffects ConfigFile.missing
        ++ [.print "Error: Database name and user are required.",
            .print "Use --database and --user arguments, or set DB_NAME and DB_USER environment variables.",
            .print "Run 'python export-schema.py --help' for usage information.",
            .exitCode 1] :=
  (missing_required_config_aborts
    ⟨false, none, none, none, none, none, none, none⟩
    ⟨fun _ => none, ConfigFile.missing, fun s => s == "3306",
     fun _ => true, fun _ _ => true, true, ["accounts"], true⟩
    rfl rfl (Or.inl rfl)).1

end SchemaExport
